import Mathlib

/-!
# release-flow-test: the HTTP server of `main.go`

A shallow embedding of `main.go` and of the parts of the Go standard library
its behaviour rests on (`unicode/utf8`, `fmt`, `encoding/json`, `net/http`),
followed by the theorems that settle the specification's claims.

Conventions.

* A Go `string` is a finite sequence of bytes; a byte is a natural number
  below 256.  Go source literals are UTF-8, `str` gives their bytes.
* The package-level variables `Version`, `Commit`, `BuildDate` are the
  program's state: every handler receives them and hands them back.
* A handler's effect on its `http.ResponseWriter` is passed explicitly: the
  writer goes in and the updated writer comes out.  The `Response` of a
  request is what the handler has put into the writer when it returns: the
  status, the headers it set before the status line went out, and the body
  bytes it wrote.  Headers the server adds on its own (`Date`,
  `Content-Length`, a sniffed `Content-Type`) are below this level.
* The server sends what the handler produced, except that it sends no body in
  answer to a `HEAD` request: `respond` is what a handler writes,
  `Server.serve` is what the server sends.
-/

namespace ReleaseFlow

/-- A Go string: a sequence of bytes. -/
abbrev GoString := List Nat

/-! ## unicode/utf8 -/

/-- The replacement rune U+FFFD, `utf8.RuneError`. -/
def RuneError : Nat := 0xFFFD

/-- The UTF-8 encoding of a rune, `utf8.EncodeRune`: surrogates and values
above U+10FFFF are encoded as `RuneError`. -/
def EncodeRune (r : Nat) : GoString :=
  if r < 0x80 then [r]
  else if r < 0x800 then [0xC0 + r / 64, 0x80 + r % 64]
  else if 0x10FFFF < r ∨ (0xD800 ≤ r ∧ r ≤ 0xDFFF) then [0xEF, 0xBF, 0xBD]
  else if r < 0x10000 then [0xE0 + r / 4096, 0x80 + r / 64 % 64, 0x80 + r % 64]
  else [0xF0 + r / 262144, 0x80 + r / 4096 % 64, 0x80 + r / 64 % 64, 0x80 + r % 64]

/-- The bytes of a Go string literal. -/
def str (s : String) : GoString := (s.data.map (fun c => EncodeRune c.toNat)).flatten

/-- The bounds `acceptRanges` puts on the second byte of a sequence that
starts with the lead byte `s0` (`0xC2 ≤ s0 ≤ 0xF4`). -/
def acceptRange (s0 : Nat) : Nat × Nat :=
  if s0 = 0xE0 then (0xA0, 0xBF)
  else if s0 = 0xED then (0x80, 0x9F)
  else if s0 = 0xF0 then (0x90, 0xBF)
  else if s0 = 0xF4 then (0x80, 0x8F)
  else (0x80, 0xBF)

/-- The first rune of a string and its width in bytes,
`utf8.DecodeRuneInString`: `(RuneError, 0)` on the empty string,
`(RuneError, 1)` when the string does not start with a well-formed sequence. -/
def DecodeRuneInString : GoString → Nat × Nat
  | [] => (RuneError, 0)
  | s0 :: t =>
    if s0 < 0x80 then (s0, 1)
    else if s0 < 0xC2 ∨ 0xF4 < s0 then (RuneError, 1)
    else
      match t with
      | [] => (RuneError, 1)
      | s1 :: t1 =>
        if s1 < (acceptRange s0).1 ∨ (acceptRange s0).2 < s1 then (RuneError, 1)
        else if s0 < 0xE0 then (s0 % 32 * 64 + s1 % 64, 2)
        else
          match t1 with
          | [] => (RuneError, 1)
          | s2 :: t2 =>
            if s2 < 0x80 ∨ 0xBF < s2 then (RuneError, 1)
            else if s0 < 0xF0 then (s0 % 16 * 4096 + s1 % 64 * 64 + s2 % 64, 3)
            else
              match t2 with
              | [] => (RuneError, 1)
              | s3 :: _ =>
                if s3 < 0x80 ∨ 0xBF < s3 then (RuneError, 1)
                else (s0 % 8 * 262144 + s1 % 64 * 4096 + s2 % 64 * 64 + s3 % 64, 4)

/-- The loop of `utf8.ValidString`, bounded by the number of bytes left. -/
def validLoop : Nat → GoString → Bool
  | _, [] => true
  | 0, _ :: _ => false
  | fuel + 1, b :: rest =>
    if b < 0x80 then validLoop fuel rest
    else
      let d := DecodeRuneInString (b :: rest)
      if d.1 = RuneError ∧ d.2 = 1 then false
      else validLoop fuel (rest.drop (d.2 - 1))

/-- Whether a string is well-formed UTF-8, `utf8.ValidString`. -/
def ValidString (s : GoString) : Bool := validLoop s.length s

/-! ## fmt -/

/-- The `%!(EXTRA ...)` marker `fmt` appends for string operands a format
did not use. -/
def extraOperands : List GoString → GoString
  | [] => []
  | a :: as =>
    str "%!(EXTRA " ++ List.intercalate (str ", ") ((a :: as).map (fun x => str "string=" ++ x))
      ++ str ")"

/-- The function `fmt.Sprintf` on string operands, for formats whose verbs are
`%s`, `%v` and `%%` without flags or width: literal bytes are copied, each
verb is replaced by the bytes of the next operand.  A format with another
verb is outside this fragment and yields `none`. -/
def Sprintf : GoString → List GoString → Option GoString
  | [], args => some (extraOperands args)
  | c :: rest, args =>
    if c = 0x25 then
      match rest with
      | [] => some (str "%!(NOVERB)" ++ extraOperands args)
      | v :: rest1 =>
        if v = 0x25 then (Sprintf rest1 args).map (fun out => 0x25 :: out)
        else if v = 0x73 ∨ v = 0x76 then
          match args with
          | [] => (Sprintf rest1 []).map (fun out => str "%!" ++ [v] ++ str "(MISSING)" ++ out)
          | a :: as => (Sprintf rest1 as).map (fun out => a ++ out)
        else none
    else (Sprintf rest args).map (fun out => c :: out)

/-- The function `fmt.Sprintln` on string operands: the operands separated by
spaces, then a newline. -/
def Sprintln (args : List GoString) : GoString :=
  List.intercalate (str " ") args ++ str "\n"

/-! ## net/http: the response writer -/

/-- An `http.Header`: each key with its values. -/
abbrev Header := List (GoString × List GoString)

/-- The method `Header.Set`: the key gets the single value. -/
def Header.Set (h : Header) (key value : GoString) : Header :=
  h.filter (fun kv => kv.1 ≠ key) ++ [(key, [value])]

/-- The method `Header.Get`: the first value of the key, or the empty string. -/
def Header.Get (h : Header) (key : GoString) : GoString :=
  match h.lookup key with
  | some (v :: _) => v
  | _ => []

/-- The state of an `http.ResponseWriter` during one request. -/
structure ResponseWriter where
  /-- The map `w.Header()` returns. -/
  header : Header
  /-- Whether the status line has been written. -/
  wroteHeader : Bool
  /-- The status code written. -/
  status : Nat
  /-- The headers as they were when the status line was written. -/
  sent : Header
  /-- The body bytes written so far. -/
  body : GoString

/-- The writer a request starts with. -/
def ResponseWriter.new : ResponseWriter :=
  { header := [], wroteHeader := false, status := 0, sent := [], body := [] }

/-- The statement `w.Header().Set(key, value)`. -/
def ResponseWriter.SetHeader (w : ResponseWriter) (key value : GoString) : ResponseWriter :=
  { w with header := w.header.Set key value }

/-- The method `WriteHeader`: the first call fixes the status code and the
headers; later calls change nothing. -/
def ResponseWriter.WriteHeader (w : ResponseWriter) (code : Nat) : ResponseWriter :=
  if w.wroteHeader then w
  else { w with wroteHeader := true, status := code, sent := w.header }

/-- Statuses that permit a body, `bodyAllowedForStatus`. -/
def bodyAllowedForStatus (status : Nat) : Bool :=
  if 100 ≤ status ∧ status ≤ 199 then false
  else if status = 204 then false
  else if status = 304 then false
  else true

/-- The method `Write`: writes the status line with 200 first when no
`WriteHeader` call came before, then appends the bytes to the body. -/
def ResponseWriter.Write (w : ResponseWriter) (data : GoString) : ResponseWriter :=
  let w1 := if w.wroteHeader then w else w.WriteHeader 200
  if bodyAllowedForStatus w1.status then { w1 with body := w1.body ++ data } else w1

/-- What a handler has produced when it returns. -/
structure Response where
  /-- The status code. -/
  status : Nat
  /-- The headers set by the handler before the status line was written. -/
  header : Header
  /-- The body bytes. -/
  body : GoString
deriving DecidableEq

/-- The end of a request: a handler that returned without writing gets
status 200. -/
def ResponseWriter.finish (w : ResponseWriter) : Response :=
  let w1 := if w.wroteHeader then w else w.WriteHeader 200
  { status := w1.status, header := w1.sent, body := w1.body }

/-- The function `fmt.Fprintf` into a response writer, for the formats of
`Sprintf`. -/
def Fprintf (w : ResponseWriter) (format : GoString) (args : List GoString) : ResponseWriter :=
  match Sprintf format args with
  | some out => w.Write out
  | none => w

/-- The function `fmt.Fprintln` into a response writer. -/
def Fprintln (w : ResponseWriter) (args : List GoString) : ResponseWriter :=
  w.Write (Sprintln args)

/-! ## encoding/json: the encoder -/

/-- The digits of `hex` in `encoding/json`. -/
def hex : GoString := str "0123456789abcdef"

/-- The table `htmlSafeSet`: the ASCII bytes the encoder copies unescaped when
HTML escaping is on (the default of an `Encoder`), that is every byte from
0x20 to 0x7F except the double quote, the backslash, `<`, `>` and `&`. -/
def htmlSafeSet (b : Nat) : Bool :=
  0x20 ≤ b && b < 0x80 && b != 0x22 && b != 0x5C && b != 0x3C && b != 0x3E && b != 0x26

/-- The escape the encoder writes for an ASCII byte outside `htmlSafeSet`:
a backslash before the double quote and the backslash, the short forms for
backspace, form feed, line feed, carriage return and tab, and `\u00XX` with
lower-case digits for the other control characters and for `<`, `>`, `&`. -/
def escapeByte (b : Nat) : GoString :=
  if b = 0x5C ∨ b = 0x22 then [0x5C, b]
  else if b = 0x08 then str "\\b"
  else if b = 0x0C then str "\\f"
  else if b = 0x0A then str "\\n"
  else if b = 0x0D then str "\\r"
  else if b = 0x09 then str "\\t"
  else str "\\u00" ++ [hex.getD (b / 16) 0, hex.getD (b % 16) 0]

/-- The loop of `appendString` with HTML escaping, bounded by the number of
bytes left: what stands between the two quotes of the encoded string.  Bytes
that are not part of a well-formed UTF-8 sequence become `\ufffd`, the runes
U+2028 and U+2029 become `\u2028` and `\u2029`. -/
def appendStringLoop : Nat → GoString → GoString
  | _, [] => []
  | 0, _ :: _ => []
  | fuel + 1, b :: rest =>
    if b < 0x80 then
      (if htmlSafeSet b then [b] else escapeByte b) ++ appendStringLoop fuel rest
    else
      let d := DecodeRuneInString (b :: rest)
      if d.1 = RuneError ∧ d.2 = 1 then
        str "\\ufffd" ++ appendStringLoop fuel rest
      else if d.1 = 0x2028 ∨ d.1 = 0x2029 then
        str "\\u202" ++ [hex.getD (d.1 % 16) 0] ++ appendStringLoop fuel (rest.drop (d.2 - 1))
      else
        (b :: rest).take d.2 ++ appendStringLoop fuel (rest.drop (d.2 - 1))

/-- The JSON encoding of a Go string, `appendString(dst, src, true)`. -/
def appendString (src : GoString) : GoString :=
  [0x22] ++ appendStringLoop src.length src ++ [0x22]

/-- The encoding of a struct whose fields are strings: the fields in
declaration order under their JSON names, no whitespace. -/
def encodeStruct (fields : List (GoString × GoString)) : GoString :=
  [0x7B] ++ List.intercalate [0x2C] (fields.map (fun f => appendString f.1 ++ [0x3A] ++ appendString f.2))
    ++ [0x7D]

/-! ## JSON texts (RFC 8259): objects whose members are strings -/

/-- JSON whitespace: space, tab, line feed, carriage return. -/
def isWS (b : Nat) : Bool := b == 0x20 || b == 0x09 || b == 0x0A || b == 0x0D

/-- Drops leading whitespace. -/
def skipWS : GoString → GoString
  | [] => []
  | b :: rest => if isWS b then skipWS rest else b :: rest

/-- The value of a hexadecimal digit. -/
def hexVal (b : Nat) : Option Nat :=
  if 0x30 ≤ b ∧ b ≤ 0x39 then some (b - 0x30)
  else if 0x61 ≤ b ∧ b ≤ 0x66 then some (b - 0x61 + 10)
  else if 0x41 ≤ b ∧ b ≤ 0x46 then some (b - 0x41 + 10)
  else none

/-- The value of four hexadecimal digits. -/
def hex4 (a b c d : Nat) : Option Nat :=
  match hexVal a, hexVal b, hexVal c, hexVal d with
  | some x, some y, some z, some w => some (x * 4096 + y * 256 + z * 16 + w)
  | _, _, _, _ => none

/-- The byte a two-character escape stands for. -/
def simpleEscape (e : Nat) : Option Nat :=
  if e = 0x22 then some 0x22
  else if e = 0x5C then some 0x5C
  else if e = 0x2F then some 0x2F
  else if e = 0x62 then some 0x08
  else if e = 0x66 then some 0x0C
  else if e = 0x6E then some 0x0A
  else if e = 0x72 then some 0x0D
  else if e = 0x74 then some 0x09
  else none

/-- A `\uXXXX` escape of a low surrogate at the head of the input: its value
and the input after it. -/
def lowSurrogate : GoString → Option (Nat × GoString)
  | bs :: u :: a :: b :: c :: d :: rest =>
    if bs = 0x5C ∧ u = 0x75 then
      match hex4 a b c d with
      | some lo => if 0xDC00 ≤ lo ∧ lo ≤ 0xDFFF then some (lo, rest) else none
      | none => none
    else none
  | _ => none

/-- Reads a JSON string after its opening quote: the bytes it denotes and the
input after the closing quote.  Unescaped control characters, unknown escapes
and ill-formed UTF-8 are rejected; a surrogate pair denotes one code point and
a lone surrogate the replacement character. -/
def parseStringLoop : Nat → GoString → Option (GoString × GoString)
  | _, [] => none
  | 0, _ :: _ => none
  | fuel + 1, b :: rest =>
    if b = 0x22 then some ([], rest)
    else if b = 0x5C then
      match rest with
      | [] => none
      | e :: rest1 =>
        if e = 0x75 then
          match rest1 with
          | h1 :: h2 :: h3 :: h4 :: rest2 =>
            match hex4 h1 h2 h3 h4 with
            | none => none
            | some u =>
              if 0xD800 ≤ u ∧ u ≤ 0xDBFF then
                match lowSurrogate rest2 with
                | some (lo, rest3) =>
                  (parseStringLoop fuel rest3).map
                    (fun r => (EncodeRune (0x10000 + (u - 0xD800) * 1024 + (lo - 0xDC00)) ++ r.1, r.2))
                | none => (parseStringLoop fuel rest2).map (fun r => (EncodeRune RuneError ++ r.1, r.2))
              else (parseStringLoop fuel rest2).map (fun r => (EncodeRune u ++ r.1, r.2))
          | _ => none
        else
          match simpleEscape e with
          | some x => (parseStringLoop fuel rest1).map (fun r => (x :: r.1, r.2))
          | none => none
    else if b < 0x20 then none
    else if b < 0x80 then (parseStringLoop fuel rest).map (fun r => (b :: r.1, r.2))
    else
      let d := DecodeRuneInString (b :: rest)
      if d.1 = RuneError ∧ d.2 = 1 then none
      else
        (parseStringLoop fuel (rest.drop (d.2 - 1))).map
          (fun r => ((b :: rest).take d.2 ++ r.1, r.2))

/-- Reads a JSON string at the head of the input. -/
def parseString : GoString → Option (GoString × GoString)
  | [] => none
  | q :: rest => if q = 0x22 then parseStringLoop rest.length rest else none

/-- Reads one member `"name" : "value"`. -/
def parseMember (s : GoString) : Option ((GoString × GoString) × GoString) :=
  match parseString s with
  | none => none
  | some (k, s1) =>
    match skipWS s1 with
    | [] => none
    | c :: s2 =>
      if c = 0x3A then
        match parseString (skipWS s2) with
        | some (v, s3) => some ((k, v), s3)
        | none => none
      else none

/-- Reads the members of an object up to and including its closing brace. -/
def parseMembers : Nat → GoString → Option (List (GoString × GoString) × GoString)
  | 0, _ => none
  | fuel + 1, s =>
    match parseMember s with
    | none => none
    | some (kv, s1) =>
      match skipWS s1 with
      | [] => none
      | c :: s2 =>
        if c = 0x7D then some ([kv], s2)
        else if c = 0x2C then
          (parseMembers fuel (skipWS s2)).map (fun r => (kv :: r.1, r.2))
        else none

/-- Reads a whole JSON text that is one object with string members, whitespace
allowed around every token: its members in order, each name with its value.
Anything else is rejected. -/
def parseObject (s : GoString) : Option (List (GoString × GoString)) :=
  match skipWS s with
  | [] => none
  | c :: s1 =>
    if c = 0x7B then
      match skipWS s1 with
      | [] => none
      | c1 :: s2 =>
        if c1 = 0x7D then (if skipWS s2 = [] then some [] else none)
        else
          match parseMembers (c1 :: s2).length (c1 :: s2) with
          | some (ms, s3) => if skipWS s3 = [] then some ms else none
          | none => none
    else none

/-- The replacement of every byte that is not part of a well-formed UTF-8
sequence by the encoding of U+FFFD, bounded by the number of bytes left. -/
def toValidLoop : Nat → GoString → GoString
  | _, [] => []
  | 0, _ :: _ => []
  | fuel + 1, b :: rest =>
    if b < 0x80 then b :: toValidLoop fuel rest
    else
      let d := DecodeRuneInString (b :: rest)
      if d.1 = RuneError ∧ d.2 = 1 then EncodeRune RuneError ++ toValidLoop fuel rest
      else (b :: rest).take d.2 ++ toValidLoop fuel (rest.drop (d.2 - 1))

/-- The string coerced to valid UTF-8: each invalid byte replaced by U+FFFD. -/
def toValidUTF8 (s : GoString) : GoString := toValidLoop s.length s

/-- The method `Encoder.Encode` of `json.NewEncoder(w)` on a struct of
strings: the encoding followed by a newline, in one `Write`. -/
def Encode (w : ResponseWriter) (fields : List (GoString × GoString)) : ResponseWriter :=
  w.Write (encodeStruct fields ++ [0x0A])

/-! ## main.go: variables, types, handlers -/

/-- The package-level variables of `main.go`, set at link time. -/
structure Globals where
  /-- The variable `Version`. -/
  Version : GoString
  /-- The variable `Commit`. -/
  Commit : GoString
  /-- The variable `BuildDate`. -/
  BuildDate : GoString
deriving DecidableEq

/-- The values the variables have when the linker sets none of them. -/
def Globals.default : Globals :=
  { Version := str "dev", Commit := str "unknown", BuildDate := str "unknown" }

/-- The constants of package `runtime` the program reads. -/
structure Runtime where
  /-- The result of `runtime.Version()`. -/
  Version : GoString
  /-- The constant `runtime.GOOS`. -/
  GOOS : GoString
  /-- The constant `runtime.GOARCH`. -/
  GOARCH : GoString

/-- The struct `VersionInfo`. -/
structure VersionInfo where
  /-- Field `Version`, JSON name `version`. -/
  Version : GoString
  /-- Field `Commit`, JSON name `commit`. -/
  Commit : GoString
  /-- Field `BuildDate`, JSON name `build_date`. -/
  BuildDate : GoString
  /-- Field `GoVersion`, JSON name `go_version`. -/
  GoVersion : GoString
  /-- Field `Platform`, JSON name `platform`. -/
  Platform : GoString

/-- The fields of a `VersionInfo` in declaration order, each under the name
its `json` tag gives. -/
def VersionInfo.fields (info : VersionInfo) : List (GoString × GoString) :=
  [ (str "version", info.Version),
    (str "commit", info.Commit),
    (str "build_date", info.BuildDate),
    (str "go_version", info.GoVersion),
    (str "platform", info.Platform) ]

/-- What the route table reads of an `http.Request`: the method and
`r.URL.Path`.  The handlers of `main.go` read nothing of the request. -/
structure Request where
  /-- The field `r.Method`. -/
  Method : GoString
  /-- The field `r.URL.Path`. -/
  Path : GoString
deriving DecidableEq

/-- An `http.HandlerFunc` of this program: from the writer, the request and
the package variables to the writer and the variables afterwards. -/
abbrev HandlerFunc := ResponseWriter → Request → Globals → ResponseWriter × Globals

/-- The constant `http.StatusOK`. -/
def StatusOK : Nat := 200

/-- The constant `http.StatusNotFound`. -/
def StatusNotFound : Nat := 404

/-- The function `handleRoot`. -/
def handleRoot : HandlerFunc := fun w _r g =>
  (Fprintf w (str "Hello, World! (version: %s)\n") [g.Version], g)

/-- The function `handleHealth`. -/
def handleHealth : HandlerFunc := fun w _r g =>
  let w := w.WriteHeader StatusOK
  (Fprintln w [str "OK"], g)

/-- The function `handleReadiness`. -/
def handleReadiness : HandlerFunc := fun w _r g =>
  let w := w.WriteHeader StatusOK
  (Fprintln w [str "Ready"], g)

/-- The function `handleVersion`. -/
def handleVersion (rt : Runtime) : HandlerFunc := fun w _r g =>
  let info : VersionInfo :=
    { Version := g.Version,
      Commit := g.Commit,
      BuildDate := g.BuildDate,
      GoVersion := rt.Version,
      Platform := (Sprintf (str "%s/%s") [rt.GOOS, rt.GOARCH]).getD [] }
  let w := w.SetHeader (str "Content-Type") (str "application/json")
  (Encode w info.fields, g)

/-- The response a handler gives to a request, starting from a fresh writer,
and the package variables afterwards. -/
def respond (h : HandlerFunc) (r : Request) (g : Globals) : Response × Globals :=
  ((h ResponseWriter.new r g).1.finish, (h ResponseWriter.new r g).2)

/-! ## net/http: the request multiplexer

The route table follows `ServeMux` for patterns without a host name, the only
kind `main` registers: a pattern that ends in a slash names a subtree, any
other pattern names one path; an exact match wins, then the longest subtree
pattern that is a prefix of the path. -/

/-- An entry of the route table. -/
structure muxEntry where
  /-- The handler. -/
  h : HandlerFunc
  /-- The pattern it was registered under. -/
  pattern : GoString

/-- The state of an `http.ServeMux`. -/
structure ServeMux where
  /-- The map from pattern to entry, as a list without repeated patterns. -/
  m : List muxEntry
  /-- The entries whose pattern ends in a slash, longest pattern first. -/
  es : List muxEntry

/-- The empty route table. -/
def ServeMux.empty : ServeMux := { m := [], es := [] }

/-- The map lookup `mux.m[path]`. -/
def ServeMux.lookup (mux : ServeMux) (path : GoString) : Option muxEntry :=
  mux.m.find? (fun e => e.pattern = path)

/-- The function `appendSorted`: inserts before the first entry with a shorter
pattern. -/
def appendSorted : List muxEntry → muxEntry → List muxEntry
  | [], e => [e]
  | x :: xs, e =>
    if x.pattern.length < e.pattern.length then e :: x :: xs else x :: appendSorted xs e

/-- The method `ServeMux.Handle`; `none` where it panics: on the empty pattern
and on a pattern registered before. -/
def ServeMux.Handle (mux : ServeMux) (pattern : GoString) (handler : HandlerFunc) :
    Option ServeMux :=
  if pattern = [] then none
  else if (mux.lookup pattern).isSome then none
  else
    let e : muxEntry := { h := handler, pattern := pattern }
    some { m := mux.m ++ [e],
           es := if pattern.getLast? = some 0x2F then appendSorted mux.es e else mux.es }

/-- The method `ServeMux.match`: the entry for a path, if any. -/
def ServeMux.match (mux : ServeMux) (path : GoString) : Option muxEntry :=
  match mux.lookup path with
  | some e => some e
  | none => mux.es.find? (fun e => e.pattern.isPrefixOf path)

/-- The function `http.Error`. -/
def Error (w : ResponseWriter) (error : GoString) (code : Nat) : ResponseWriter :=
  let w := w.SetHeader (str "Content-Type") (str "text/plain; charset=utf-8")
  let w := w.SetHeader (str "X-Content-Type-Options") (str "nosniff")
  let w := w.WriteHeader code
  Fprintln w [error]

/-- The function `http.NotFound`, the handler of a path no pattern matches. -/
def NotFound : HandlerFunc := fun w _r g =>
  (Error w (str "404 page not found") StatusNotFound, g)

/-- The elements of a path between its slashes. -/
def splitSlash : GoString → List GoString
  | [] => [[]]
  | b :: rest =>
    if b = 0x2F then [] :: splitSlash rest
    else
      match splitSlash rest with
      | [] => [[b]]
      | seg :: segs => (b :: seg) :: segs

/-- The elements that remain of a rooted path, innermost last: empty elements
and `.` are dropped, `..` removes the element before it, if there is one. -/
def cleanElems : List GoString → List GoString → List GoString
  | stack, [] => stack.reverse
  | stack, e :: es =>
    if e = [] ∨ e = str "." then cleanElems stack es
    else if e = str ".." then cleanElems stack.tail es
    else cleanElems (e :: stack) es

/-- The function `path.Clean` on a rooted path. -/
def pathClean (p : GoString) : GoString :=
  0x2F :: List.intercalate [0x2F] (cleanElems [] (splitSlash p))

/-- The function `cleanPath` of `net/http`: the canonical form of a request
path, which starts with a slash, has no `.` or `..` element and no repeated
slash, and keeps a trailing slash. -/
def cleanPath (p : GoString) : GoString :=
  if p = [] then [0x2F]
  else
    let p1 := if p.head? = some 0x2F then p else 0x2F :: p
    let np := pathClean p1
    if p1.getLast? = some 0x2F ∧ np ≠ [0x2F] then np ++ [0x2F] else np

/-- The method `shouldRedirectRLocked`: whether the path is registered only
with a slash added. -/
def ServeMux.shouldRedirect (mux : ServeMux) (path : GoString) : Bool :=
  if (mux.lookup path).isSome then false
  else if path = [] then false
  else if (mux.lookup (path ++ [0x2F])).isSome then path.getLast? != some 0x2F
  else false

/-- What the route table decides for a request. -/
inductive Route where
  /-- The request goes to a handler; the pattern is the one that matched, empty
  for the not-found handler. -/
  | handler (h : HandlerFunc) (pattern : GoString)
  /-- The mux itself answers with a 301 redirect to the path. -/
  | redirect (path : GoString)

/-- The method `ServeMux.handler`: the matching entry, else the not-found
handler. -/
def ServeMux.handler (mux : ServeMux) (path : GoString) : Route :=
  match mux.match path with
  | some e => Route.handler e.h e.pattern
  | none => Route.handler NotFound []

/-- The method `ServeMux.Handler`: `CONNECT` requests are matched on their path
as it is; for every other method a path that is not in canonical form is
redirected to its canonical form. -/
def ServeMux.Handler (mux : ServeMux) (r : Request) : Route :=
  if r.Method = str "CONNECT" then
    if mux.shouldRedirect r.Path then Route.redirect (r.Path ++ [0x2F])
    else mux.handler r.Path
  else
    let path := cleanPath r.Path
    if mux.shouldRedirect path then Route.redirect (path ++ [0x2F])
    else if path ≠ r.Path then Route.redirect path
    else mux.handler r.Path

/-- The answer to one request. -/
inductive Outcome where
  /-- A handler ran and produced the response. -/
  | response (resp : Response)
  /-- The mux answered with status 301 and the location. -/
  | redirect (location : GoString)
  /-- The mux answered the request target `*` with status 400. -/
  | badRequest
deriving DecidableEq

/-- The status code of an answer. -/
def Outcome.status : Outcome → Nat
  | Outcome.response resp => resp.status
  | Outcome.redirect _ => 301
  | Outcome.badRequest => 400

/-- The method `ServeMux.ServeHTTP`: the request target `*`, the only one whose
path is `*`, is refused with status 400; any other request goes where
`Handler` says. -/
def ServeMux.ServeHTTP (mux : ServeMux) (r : Request) (g : Globals) : Outcome × Globals :=
  if r.Path = str "*" then (Outcome.badRequest, g)
  else
    match mux.Handler r with
    | Route.handler h _ => ((respond h r g).1 |> Outcome.response, (respond h r g).2)
    | Route.redirect path => (Outcome.redirect path, g)

/-- The handler the server uses for `OPTIONS *`. -/
def globalOptionsHandler : HandlerFunc := fun w _r g =>
  (w.SetHeader (str "Content-Length") (str "0"), g)

/-! ## main.go: main -/

/-- The process environment: the value of each variable that is set. -/
abbrev Environ := GoString → Option GoString

/-- The function `os.Getenv`: the value, or the empty string when unset. -/
def Getenv (env : Environ) (key : GoString) : GoString := (env key).getD []

/-- What `main` hands to `http.ListenAndServe(addr, nil)`: the address, and
the default route table as the four `http.HandleFunc` calls leave it. -/
structure Server where
  /-- The listen address. -/
  addr : GoString
  /-- The line given to `log.Printf`. -/
  logged : Option GoString
  /-- The default route table. -/
  mux : ServeMux

/-- The function `main` up to the call of `http.ListenAndServe`; `none` if a
registration panics. -/
def main (env : Environ) (rt : Runtime) (g : Globals) : Option Server :=
  let port := Getenv env (str "PORT")
  let port := if port = str "" then str "8080" else port
  (ServeMux.empty.Handle (str "/") handleRoot).bind fun mux =>
  (mux.Handle (str "/health") handleHealth).bind fun mux =>
  (mux.Handle (str "/readiness") handleReadiness).bind fun mux =>
  (mux.Handle (str "/version") (handleVersion rt)).bind fun mux =>
  let addr := str ":" ++ port
  some { addr := addr,
         logged := Sprintf (str "Starting server on %s (version: %s)") [addr, g.Version],
         mux := mux }

/-- The method `serverHandler.ServeHTTP`: `OPTIONS *` is answered by the
server's own handler, everything else by the route table. -/
def Server.dispatch (srv : Server) (r : Request) (g : Globals) : Outcome × Globals :=
  if r.Method = str "OPTIONS" ∧ r.Path = str "*" then
    ((respond globalOptionsHandler r g).1 |> Outcome.response, (respond globalOptionsHandler r g).2)
  else srv.mux.ServeHTTP r g

/-- What the connection sends of a response a handler produced: the status
and the headers as they are, and the body unless the request method is
`HEAD`, for which the server discards every body write. -/
def transmit (r : Request) (resp : Response) : Response :=
  if r.Method = str "HEAD" then { resp with body := [] } else resp

/-- What the connection sends of an answer. -/
def Outcome.transmit (r : Request) : Outcome → Outcome
  | Outcome.response resp => Outcome.response (ReleaseFlow.transmit r resp)
  | Outcome.redirect location => Outcome.redirect location
  | Outcome.badRequest => Outcome.badRequest

/-- The server's answer to one request as it goes out on the connection, and
the package variables afterwards. -/
def Server.serve (srv : Server) (r : Request) (g : Globals) : Outcome × Globals :=
  ((srv.dispatch r g).1.transmit r, (srv.dispatch r g).2)

/-- The server's handling of requests one after the other, each starting from
the package variables the one before left. -/
def Server.serveAll (srv : Server) : List Request → Globals → List Outcome × Globals
  | [], g => ([], g)
  | r :: rs, g =>
    let first := srv.serve r g
    let others := Server.serveAll srv rs first.2
    (first.1 :: others.1, others.2)

/-- The program from start to the answer of one request: `main` with the
environment, then the request. -/
def run (env : Environ) (rt : Runtime) (g : Globals) (r : Request) : Option (Outcome × Globals) :=
  (main env rt g).map (fun srv => srv.serve r g)

/-! ## Values the statements refer to -/

/-- The route table the four `http.HandleFunc` calls of `main` build. -/
def routes (rt : Runtime) : ServeMux :=
  { m := [ { h := handleRoot, pattern := str "/" },
           { h := handleHealth, pattern := str "/health" },
           { h := handleReadiness, pattern := str "/readiness" },
           { h := handleVersion rt, pattern := str "/version" } ],
    es := [ { h := handleRoot, pattern := str "/" } ] }

/-- The value of a string of decimal digits. -/
def decimalValue (s : GoString) : Nat := s.foldl (fun acc d => acc * 10 + (d - 0x30)) 0

/-- A valid port number: a non-empty string of decimal digits whose value is
at most 65535. -/
def isPortNumber (s : GoString) : Bool :=
  !s.isEmpty && s.all (fun d => 0x30 ≤ d && d ≤ 0x39) && decimalValue s ≤ 65535

/-- An environment in which no variable is set. -/
def Environ.unset : Environ := fun _ => none

/-- An environment in which only `PORT` is set. -/
def Environ.withPort (port : GoString) : Environ :=
  fun key => if key = str "PORT" then some port else none

/-- The runtime constants of a build with Go 1.21.0 for linux/amd64. -/
def Runtime.linuxAmd64 : Runtime :=
  { Version := str "go1.21.0", GOOS := str "linux", GOARCH := str "amd64" }

/-- The greeting `handleRoot` writes for a version. -/
def greeting (version : GoString) : Response :=
  { status := 200, header := [], body := str "Hello, World! (version: " ++ version ++ str ")\n" }

/-- The body the specification gives for `/version` with the variables at
their defaults: the go_version `g` and the platform `p` between quotes as
they are, nothing after the closing brace. -/
def specVersionBody (g p : GoString) : GoString :=
  str "\x7b\"version\":\"dev\",\"commit\":\"unknown\",\"build_date\":\"unknown\",\"go_version\":\""
    ++ g ++ str "\",\"platform\":\"" ++ p ++ str "\"\x7d"

/-! ## Lemmas: the route table -/

theorem main_eq (env : Environ) (rt : Runtime) (g : Globals) :
    main env rt g = some
      { addr := str ":" ++
          (if Getenv env (str "PORT") = str "" then str "8080" else Getenv env (str "PORT")),
        logged := Sprintf (str "Starting server on %s (version: %s)")
          [str ":" ++
            (if Getenv env (str "PORT") = str "" then str "8080" else Getenv env (str "PORT")),
           g.Version],
        mux := routes rt } := by
  rfl

theorem cleanPath_head (p : GoString) : (cleanPath p).head? = some 0x2F := by
  unfold cleanPath
  split
  · rfl
  · simp only [pathClean]
    split <;> split <;> rfl

theorem cons_of_canonical {p : GoString} (h : cleanPath p = p) : ∃ t, p = 0x2F :: t := by
  have hh := cleanPath_head p
  rw [h] at hh
  cases p with
  | nil => simp at hh
  | cons a t => simp at hh; exact ⟨t, by rw [hh]⟩

theorem ne_append_slash (p s : GoString) (hs : s.getLast? ≠ some 0x2F) : s ≠ p ++ [0x2F] := by
  intro h
  apply hs
  rw [h]
  simp

theorem routes_lookup_none (rt : Runtime) (p : GoString) (h0 : str "/" ≠ p)
    (h1 : str "/health" ≠ p) (h2 : str "/readiness" ≠ p) (h3 : str "/version" ≠ p) :
    (routes rt).lookup p = none := by
  unfold ServeMux.lookup routes
  simp [List.find?, h0, h1, h2, h3]

theorem routes_shouldRedirect (rt : Runtime) (p : GoString) :
    (routes rt).shouldRedirect p = false := by
  unfold ServeMux.shouldRedirect
  split
  · rfl
  · split
    · rfl
    · rename_i hne
      have hnone : (routes rt).lookup (p ++ [0x2F]) = none := by
        apply routes_lookup_none
        · intro h
          have hl := congrArg List.length h
          simp [str, EncodeRune] at hl
          exact hne hl
        · exact ne_append_slash p _ (by decide)
        · exact ne_append_slash p _ (by decide)
        · exact ne_append_slash p _ (by decide)
      simp [hnone]

theorem routes_match_root (rt : Runtime) (t : GoString)
    (h1 : str "/health" ≠ 0x2F :: t) (h2 : str "/readiness" ≠ 0x2F :: t)
    (h3 : str "/version" ≠ 0x2F :: t) :
    (routes rt).match (0x2F :: t) = some { h := handleRoot, pattern := str "/" } := by
  by_cases h0 : str "/" = 0x2F :: t
  · unfold ServeMux.match ServeMux.lookup routes
    simp [List.find?, h0]
  · unfold ServeMux.match
    rw [routes_lookup_none rt _ h0 h1 h2 h3]
    have hp : List.isPrefixOf (str "/") (0x2F :: t) = true := by
      rw [show str "/" = [0x2F] from rfl]
      simp
    simp [routes, List.find?, hp]

theorem routes_Handler_canonical (rt : Runtime) (r : Request) (hc : cleanPath r.Path = r.Path) :
    (routes rt).Handler r = (routes rt).handler r.Path := by
  unfold ServeMux.Handler
  simp [routes_shouldRedirect, hc]

theorem transmit_of_not_head (r : Request) (resp : Response) (h : r.Method ≠ str "HEAD") :
    transmit r resp = resp := by
  simp [transmit, h]

theorem transmit_of_head (r : Request) (resp : Response) (h : r.Method = str "HEAD") :
    transmit r resp = { resp with body := [] } := by
  simp [transmit, h]

theorem transmit_status (r : Request) (resp : Response) :
    (transmit r resp).status = resp.status := by
  unfold transmit
  split <;> rfl

theorem transmit_header (r : Request) (resp : Response) :
    (transmit r resp).header = resp.header := by
  unfold transmit
  split <;> rfl

theorem transmit_congr (m m' p : GoString) (resp : Response)
    (h : m = str "HEAD" ↔ m' = str "HEAD") :
    transmit ⟨m, p⟩ resp = transmit ⟨m', p⟩ resp := by
  by_cases hm : m = str "HEAD"
  · rw [transmit_of_head _ _ hm, transmit_of_head _ _ (h.mp hm)]
  · rw [transmit_of_not_head _ _ hm, transmit_of_not_head _ _ (fun h' => hm (h.mpr h'))]

theorem serve_of_Handler (srv : Server) (r : Request) (g : Globals) (h : HandlerFunc)
    (pattern : GoString) (hp : r.Path ≠ str "*") (hr : srv.mux.Handler r = Route.handler h pattern) :
    srv.serve r g = (Outcome.response (transmit r (respond h r g).1), (respond h r g).2) := by
  unfold Server.serve Server.dispatch ServeMux.ServeHTTP
  simp [hp, hr, Outcome.transmit]

theorem routes_Handler_root (rt : Runtime) (r : Request) (hc : cleanPath r.Path = r.Path)
    (h1 : r.Path ≠ str "/health") (h2 : r.Path ≠ str "/readiness") (h3 : r.Path ≠ str "/version") :
    (routes rt).Handler r = Route.handler handleRoot (str "/") := by
  rw [routes_Handler_canonical rt r hc]
  obtain ⟨t, ht⟩ := cons_of_canonical hc
  unfold ServeMux.handler
  rw [ht, routes_match_root rt t (by rw [← ht]; exact Ne.symm h1) (by rw [← ht]; exact Ne.symm h2)
    (by rw [← ht]; exact Ne.symm h3)]

theorem canonical_ne_star {p : GoString} (hc : cleanPath p = p) : p ≠ str "*" := by
  obtain ⟨t, ht⟩ := cons_of_canonical hc
  rw [ht, show str "*" = [0x2A] from rfl]
  simp

theorem routes_Handler_registered (rt : Runtime) (m : GoString) :
    (routes rt).Handler ⟨m, str "/"⟩ = Route.handler handleRoot (str "/")
    ∧ (routes rt).Handler ⟨m, str "/health"⟩ = Route.handler handleHealth (str "/health")
    ∧ (routes rt).Handler ⟨m, str "/readiness"⟩ = Route.handler handleReadiness (str "/readiness")
    ∧ (routes rt).Handler ⟨m, str "/version"⟩ = Route.handler (handleVersion rt) (str "/version") := by
  refine ⟨?_, ?_, ?_, ?_⟩
  all_goals
    rw [routes_Handler_canonical rt _ (by rfl)]
    rfl

theorem routes_handler_cases (rt : Runtime) (p : GoString) :
    (routes rt).handler p = Route.handler handleRoot (str "/")
    ∨ (routes rt).handler p = Route.handler handleHealth (str "/health")
    ∨ (routes rt).handler p = Route.handler handleReadiness (str "/readiness")
    ∨ (routes rt).handler p = Route.handler (handleVersion rt) (str "/version")
    ∨ (routes rt).handler p = Route.handler NotFound [] := by
  by_cases h0 : str "/" = p
  · left
    unfold ServeMux.handler ServeMux.match ServeMux.lookup routes
    simp [List.find?, h0]
  by_cases h1 : str "/health" = p
  · right; left
    unfold ServeMux.handler ServeMux.match ServeMux.lookup routes
    simp [List.find?, h0, h1]
  by_cases h2 : str "/readiness" = p
  · right; right; left
    unfold ServeMux.handler ServeMux.match ServeMux.lookup routes
    simp [List.find?, h0, h1, h2]
  by_cases h3 : str "/version" = p
  · right; right; right; left
    unfold ServeMux.handler ServeMux.match ServeMux.lookup routes
    simp [List.find?, h0, h1, h2, h3]
  unfold ServeMux.handler ServeMux.match
  rw [routes_lookup_none rt p h0 h1 h2 h3]
  by_cases hp : List.isPrefixOf (str "/") p = true
  · left
    simp [routes, List.find?, hp]
  · right; right; right; right
    simp [routes, List.find?, hp]

theorem routes_handler_keeps_globals (rt : Runtime) (p : GoString) :
    ∃ h pattern, (routes rt).handler p = Route.handler h pattern
      ∧ ∀ (r : Request) (g : Globals), (respond h r g).2 = g := by
  rcases routes_handler_cases rt p with h | h | h | h | h
  · exact ⟨_, _, h, fun _ _ => rfl⟩
  · exact ⟨_, _, h, fun _ _ => rfl⟩
  · exact ⟨_, _, h, fun _ _ => rfl⟩
  · exact ⟨_, _, h, fun _ _ => rfl⟩
  · exact ⟨_, _, h, fun _ _ => rfl⟩

theorem routes_Handler_cases (rt : Runtime) (r : Request) :
    (∃ p, (routes rt).Handler r = Route.redirect p)
    ∨ ∃ h pattern, (routes rt).Handler r = Route.handler h pattern
        ∧ ∀ (r : Request) (g : Globals), (respond h r g).2 = g := by
  unfold ServeMux.Handler
  simp only [routes_shouldRedirect, Bool.false_eq_true, ↓reduceIte]
  by_cases hm : r.Method = str "CONNECT"
  · right
    rw [if_pos hm]
    exact routes_handler_keeps_globals rt r.Path
  · rw [if_neg hm]
    by_cases hc : cleanPath r.Path ≠ r.Path
    · left
      rw [if_pos hc]
      exact ⟨_, rfl⟩
    · right
      rw [if_neg hc]
      exact routes_handler_keeps_globals rt r.Path

theorem routes_serve_globals (srv : Server) (rt : Runtime) (hm : srv.mux = routes rt)
    (r : Request) (g : Globals) : (srv.serve r g).2 = g := by
  show (srv.dispatch r g).2 = g
  unfold Server.dispatch
  split
  · rfl
  · unfold ServeMux.ServeHTTP
    split
    · rfl
    · rw [hm]
      rcases routes_Handler_cases rt r with ⟨p, hp⟩ | ⟨h, pattern, hh, hg⟩
      · rw [hp]
      · rw [hh]
        exact hg r g

theorem routes_serveAll_globals (srv : Server) (rt : Runtime) (hm : srv.mux = routes rt)
    (rs : List Request) (g : Globals) : (srv.serveAll rs g).2 = g := by
  induction rs with
  | nil => rfl
  | cons r rs ih =>
    simp only [Server.serveAll]
    rw [routes_serve_globals srv rt hm r g]
    exact ih

/-! ## Lemmas: JSON strings and objects -/

theorem parse_ascii_step (b : Nat) (hb : b < 0x80) (fuel : Nat) (tail : GoString) :
    parseStringLoop (fuel + 1) ((if htmlSafeSet b then [b] else escapeByte b) ++ tail)
      = (parseStringLoop fuel tail).map (fun r => (b :: r.1, r.2)) := by
  interval_cases b <;> rfl

theorem ascii_piece_length (b : Nat) (hb : b < 0x80) :
    1 ≤ (if htmlSafeSet b then [b] else escapeByte b).length := by
  interval_cases b <;> decide

theorem acceptRange_bounds (b : Nat) : 0x80 ≤ (acceptRange b).1 ∧ (acceptRange b).2 ≤ 0xBF := by
  unfold acceptRange
  split_ifs <;> simp

theorem decode_shape (b : Nat) (t : GoString) (hb : 0x80 ≤ b) :
    DecodeRuneInString (b :: t) = (RuneError, 1)
    ∨ ∃ pre post, t = pre ++ post ∧ 1 ≤ pre.length
        ∧ (∀ X, DecodeRuneInString (b :: (pre ++ X))
            = ((DecodeRuneInString (b :: t)).1, pre.length + 1))
        ∧ ((DecodeRuneInString (b :: t)).1 = 0x2028 ∨ (DecodeRuneInString (b :: t)).1 = 0x2029 →
            b :: pre = EncodeRune (DecodeRuneInString (b :: t)).1) := by
  have hb' : ¬ b < 0x80 := by omega
  by_cases h1 : b < 0xC2 ∨ 0xF4 < b
  · left; simp [DecodeRuneInString, h1, hb']
  cases t with
  | nil => left; simp [DecodeRuneInString, h1, hb']
  | cons s1 t1 =>
    by_cases h2 : s1 < (acceptRange b).1 ∨ (acceptRange b).2 < s1
    · left; simp [DecodeRuneInString, h1, hb', h2]
    have hr := acceptRange_bounds b
    by_cases h3 : b < 0xE0
    · right
      refine ⟨[s1], t1, rfl, by simp, ?_, ?_⟩
      · intro X
        simp [DecodeRuneInString, h1, hb', h2, h3]
      · simp only [DecodeRuneInString, h1, hb', h2, h3, if_true, if_false]
        intro h
        omega
    cases t1 with
    | nil => left; simp [DecodeRuneInString, h1, hb', h2, h3]
    | cons s2 t2 =>
      by_cases h4 : s2 < 0x80 ∨ 0xBF < s2
      · left; simp [DecodeRuneInString, h1, hb', h2, h3, h4]
      by_cases h5 : b < 0xF0
      · right
        refine ⟨[s1, s2], t2, rfl, by simp, ?_, ?_⟩
        · intro X
          simp [DecodeRuneInString, h1, hb', h2, h3, h4, h5]
        · simp only [DecodeRuneInString, h1, hb', h2, h3, h4, h5, if_true, if_false]
          intro h
          have e0 : b = 0xE2 := by omega
          have e1 : s1 = 0x80 := by omega
          rcases h with h | h
          · have e2 : s2 = 0xA8 := by omega
            subst e0 e1 e2
            rfl
          · have e2 : s2 = 0xA9 := by omega
            subst e0 e1 e2
            rfl
      cases t2 with
      | nil => left; simp [DecodeRuneInString, h1, hb', h2, h3, h4, h5]
      | cons s3 t3 =>
        by_cases h6 : s3 < 0x80 ∨ 0xBF < s3
        · left; simp [DecodeRuneInString, h1, hb', h2, h3, h4, h5, h6]
        right
        refine ⟨[s1, s2, s3], t3, rfl, by simp, ?_, ?_⟩
        · intro X
          simp [DecodeRuneInString, h1, hb', h2, h3, h4, h5, h6]
        · simp only [DecodeRuneInString, h1, hb', h2, h3, h4, h5, h6, if_true, if_false]
          intro h
          exfalso
          simp only [acceptRange] at h2
          split_ifs at h2 <;> omega

theorem parse_replacement_step (fuel : Nat) (tail : GoString) :
    parseStringLoop (fuel + 1) (str "\\ufffd" ++ tail)
      = (parseStringLoop fuel tail).map (fun r => (EncodeRune RuneError ++ r.1, r.2)) := by
  rfl

theorem parse_separator_step (c : Nat) (hc : c = 0x2028 ∨ c = 0x2029) (fuel : Nat)
    (tail : GoString) :
    parseStringLoop (fuel + 1) (str "\\u202" ++ [hex.getD (c % 16) 0] ++ tail)
      = (parseStringLoop fuel tail).map (fun r => (EncodeRune c ++ r.1, r.2)) := by
  rcases hc with h | h <;> subst h <;> rfl

theorem parse_raw_step (b : Nat) (pre tail : GoString) (c : Nat) (fuel : Nat) (hb : 0x80 ≤ b)
    (hpre : 1 ≤ pre.length)
    (hd : DecodeRuneInString (b :: (pre ++ tail)) = (c, pre.length + 1)) :
    parseStringLoop (fuel + 1) (b :: pre ++ tail)
      = (parseStringLoop fuel tail).map (fun r => (b :: pre ++ r.1, r.2)) := by
  have h1 : ¬ b = 0x22 := by omega
  have h2 : ¬ b = 0x5C := by omega
  have h3 : ¬ b < 0x20 := by omega
  have h4 : ¬ b < 0x80 := by omega
  have h5 : ¬ (c = RuneError ∧ pre.length + 1 = 1) := by omega
  rw [List.cons_append]
  generalize hX : pre ++ tail = X at hd
  simp only [parseStringLoop, h1, h2, h3, h4, hd, h5, if_false, Nat.add_sub_cancel,
    List.take_succ_cons]
  subst hX
  simp

theorem decode_of_shape {b : Nat} {t pre post : GoString} (ht : t = pre ++ post)
    (hX : ∀ X, DecodeRuneInString (b :: (pre ++ X))
      = ((DecodeRuneInString (b :: t)).1, pre.length + 1)) :
    DecodeRuneInString (b :: t) = ((DecodeRuneInString (b :: t)).1, pre.length + 1) := by
  have h := hX post
  rw [← ht] at h
  exact h

theorem parse_appendStringLoop (n : Nat) : ∀ (s rest : GoString) (fe ft fp : Nat),
    s.length ≤ n → s.length ≤ fe → s.length ≤ ft → (appendStringLoop fe s).length < fp →
    parseStringLoop fp (appendStringLoop fe s ++ 0x22 :: rest) = some (toValidLoop ft s, rest) := by
  induction n with
  | zero =>
    intro s rest fe ft fp hn _ _ hfp
    have hs : s = [] := List.length_eq_zero.mp (Nat.le_zero.mp hn)
    subst hs
    obtain ⟨k, rfl⟩ : ∃ k, fp = k + 1 := ⟨fp - 1, by omega⟩
    simp [appendStringLoop, parseStringLoop, toValidLoop]
  | succ n ih =>
    intro s rest fe ft fp hn hfe hft hfp
    cases s with
    | nil =>
      obtain ⟨k, rfl⟩ : ∃ k, fp = k + 1 := ⟨fp - 1, by omega⟩
      simp [appendStringLoop, parseStringLoop, toValidLoop]
    | cons b t =>
      simp only [List.length_cons] at hn hfe hft
      obtain ⟨fe, rfl⟩ : ∃ k, fe = k + 1 := ⟨fe - 1, by omega⟩
      obtain ⟨ft, rfl⟩ : ∃ k, ft = k + 1 := ⟨ft - 1, by omega⟩
      obtain ⟨fp, rfl⟩ : ∃ k, fp = k + 1 := ⟨fp - 1, by omega⟩
      by_cases hb : b < 0x80
      · have he : appendStringLoop (fe + 1) (b :: t)
            = (if htmlSafeSet b then [b] else escapeByte b) ++ appendStringLoop fe t := by
          simp [appendStringLoop, hb]
        have hl := ascii_piece_length b hb
        rw [he, List.length_append] at hfp
        rw [he, List.append_assoc, parse_ascii_step b hb,
          ih t rest fe ft fp (by omega) (by omega) (by omega) (by omega)]
        simp [toValidLoop, hb]
      · have hb' : 0x80 ≤ b := by omega
        rcases decode_shape b t hb' with hd | ⟨pre, post, ht, hpre, hX, hsep⟩
        · have he : appendStringLoop (fe + 1) (b :: t)
              = str "\\ufffd" ++ appendStringLoop fe t := by
            simp [appendStringLoop, hb, hd]
          have hl : (str "\\ufffd").length = 6 := rfl
          rw [he, List.length_append] at hfp
          rw [he, List.append_assoc, parse_replacement_step,
            ih t rest fe ft fp (by omega) (by omega) (by omega) (by omega)]
          simp [toValidLoop, hb, hd]
        · have hd := decode_of_shape ht hX
          have hvalid : ¬ ((DecodeRuneInString (b :: t)).1 = RuneError ∧ pre.length + 1 = 1) := by
            omega
          have hdrop : t.drop pre.length = post := by rw [ht]; simp
          have htake : (b :: t).take (pre.length + 1) = b :: pre := by rw [ht]; simp
          have hlen : t.length = pre.length + post.length := by rw [ht]; simp
          have hv : toValidLoop (ft + 1) (b :: t) = b :: pre ++ toValidLoop ft post := by
            rw [toValidLoop]
            simp only [hb, if_false]
            rw [hd]
            simp only [hvalid, if_false, Nat.add_sub_cancel, hdrop, htake]
          by_cases hc : (DecodeRuneInString (b :: t)).1 = 0x2028
              ∨ (DecodeRuneInString (b :: t)).1 = 0x2029
          · have he : appendStringLoop (fe + 1) (b :: t)
                = str "\\u202" ++ [hex.getD ((DecodeRuneInString (b :: t)).1 % 16) 0]
                  ++ appendStringLoop fe post := by
              rw [appendStringLoop]
              simp only [hb, if_false]
              rw [hd]
              simp only [hvalid, hc, if_false, if_true, Nat.add_sub_cancel, hdrop]
            have hl : (str "\\u202").length = 5 := rfl
            rw [he, List.length_append, List.length_append] at hfp
            rw [he, List.append_assoc, parse_separator_step _ hc,
              ih post rest fe ft fp (by omega) (by omega) (by omega) (by omega), hv, hsep hc]
            simp
          · have he : appendStringLoop (fe + 1) (b :: t)
                = b :: pre ++ appendStringLoop fe post := by
              rw [appendStringLoop]
              simp only [hb, if_false]
              rw [hd]
              simp only [hvalid, hc, if_false, Nat.add_sub_cancel, hdrop, htake]
            rw [he, List.length_append] at hfp
            have hX' := hX (appendStringLoop fe post ++ 0x22 :: rest)
            rw [he, List.append_assoc,
              parse_raw_step b pre _ _ fp hb' hpre hX',
              ih post rest fe ft fp (by omega) (by omega) (by omega)
                (by simp only [List.length_cons] at hfp; omega), hv]
            simp

theorem appendStringLoop_fuel (n : Nat) : ∀ (s : GoString) (f1 f2 : Nat),
    s.length ≤ n → s.length ≤ f1 → s.length ≤ f2 →
    appendStringLoop f1 s = appendStringLoop f2 s := by
  induction n with
  | zero =>
    intro s f1 f2 hn _ _
    have hs : s = [] := List.length_eq_zero.mp (Nat.le_zero.mp hn)
    subst hs
    simp [appendStringLoop]
  | succ n ih =>
    intro s f1 f2 hn h1 h2
    cases s with
    | nil => simp [appendStringLoop]
    | cons b t =>
      simp only [List.length_cons] at hn h1 h2
      obtain ⟨f1, rfl⟩ : ∃ k, f1 = k + 1 := ⟨f1 - 1, by omega⟩
      obtain ⟨f2, rfl⟩ : ∃ k, f2 = k + 1 := ⟨f2 - 1, by omega⟩
      have hdrop : ∀ k, (t.drop k).length ≤ t.length := by
        intro k
        rw [List.length_drop]
        omega
      simp only [appendStringLoop]
      rw [ih t f1 f2 (by omega) (by omega) (by omega),
        ih (t.drop ((DecodeRuneInString (b :: t)).2 - 1)) f1 f2
          (le_trans (hdrop _) (by omega)) (le_trans (hdrop _) (by omega))
          (le_trans (hdrop _) (by omega))]

theorem parseString_appendString (s rest : GoString) :
    parseString (appendString s ++ rest) = some (toValidUTF8 s, rest) := by
  unfold appendString toValidUTF8
  simp only [List.singleton_append, List.cons_append, List.append_assoc, parseString, if_true]
  exact parse_appendStringLoop s.length s rest s.length s.length _ (le_refl _) (le_refl _)
    (le_refl _) (by simp)

theorem toValidLoop_of_valid (n : Nat) : ∀ (s : GoString) (fv ft : Nat),
    s.length ≤ n → s.length ≤ fv → s.length ≤ ft → validLoop fv s = true →
    toValidLoop ft s = s := by
  induction n with
  | zero =>
    intro s fv ft hn _ _ _
    have hs : s = [] := List.length_eq_zero.mp (Nat.le_zero.mp hn)
    subst hs
    simp [toValidLoop]
  | succ n ih =>
    intro s fv ft hn hfv hft hv
    cases s with
    | nil => simp [toValidLoop]
    | cons b t =>
      simp only [List.length_cons] at hn hfv hft
      obtain ⟨fv, rfl⟩ : ∃ k, fv = k + 1 := ⟨fv - 1, by omega⟩
      obtain ⟨ft, rfl⟩ : ∃ k, ft = k + 1 := ⟨ft - 1, by omega⟩
      by_cases hb : b < 0x80
      · simp only [validLoop, hb, if_true] at hv
        simp [toValidLoop, hb, ih t fv ft (by omega) (by omega) (by omega) hv]
      · have hb' : 0x80 ≤ b := by omega
        rcases decode_shape b t hb' with hd | ⟨pre, post, ht, hpre, hX, _⟩
        · simp [validLoop, hb, hd] at hv
        · have hd := decode_of_shape ht hX
          have hvalid : ¬ ((DecodeRuneInString (b :: t)).1 = RuneError ∧ pre.length + 1 = 1) := by
            omega
          have hdrop : t.drop pre.length = post := by rw [ht]; simp
          have htake : (b :: t).take (pre.length + 1) = b :: pre := by rw [ht]; simp
          have hlen : t.length = pre.length + post.length := by rw [ht]; simp
          rw [validLoop] at hv
          simp only [hb, if_false] at hv
          rw [hd] at hv
          simp only [hvalid, if_false, Nat.add_sub_cancel, hdrop] at hv
          rw [toValidLoop]
          simp only [hb, if_false]
          rw [hd]
          simp only [hvalid, if_false, Nat.add_sub_cancel, hdrop, htake]
          rw [ih post fv ft (by omega) (by omega) (by omega) hv, ht]
          simp

theorem toValidUTF8_of_valid (s : GoString) (h : ValidString s = true) : toValidUTF8 s = s :=
  toValidLoop_of_valid s.length s s.length s.length (le_refl _) (le_refl _) (le_refl _) h

theorem appendStringLoop_of_safe : ∀ (s : GoString) (fuel : Nat), s.length ≤ fuel →
    (∀ b ∈ s, htmlSafeSet b = true) → appendStringLoop fuel s = s := by
  intro s
  induction s with
  | nil => intro fuel _ _; simp [appendStringLoop]
  | cons b t ih =>
    intro fuel hf hs
    simp only [List.length_cons] at hf
    obtain ⟨fuel, rfl⟩ : ∃ k, fuel = k + 1 := ⟨fuel - 1, by omega⟩
    have hb : htmlSafeSet b = true := hs b (by simp)
    have hlt : b < 0x80 := by
      simp only [htmlSafeSet, Bool.and_eq_true, decide_eq_true_eq] at hb
      omega
    rw [appendStringLoop]
    simp [hlt, hb, ih fuel (by omega) (fun x hx => hs x (by simp [hx]))]

theorem appendString_of_safe (s : GoString) (hs : ∀ b ∈ s, htmlSafeSet b = true) :
    appendString s = [0x22] ++ s ++ [0x22] := by
  unfold appendString
  rw [appendStringLoop_of_safe s s.length (le_refl _) hs]

theorem skipWS_appendString (s rest : GoString) :
    skipWS (appendString s ++ rest) = appendString s ++ rest := by
  rfl

theorem parseMember_encoded (k v rest : GoString) :
    parseMember (appendString k ++ [0x3A] ++ appendString v ++ rest)
      = some ((toValidUTF8 k, toValidUTF8 v), rest) := by
  unfold parseMember
  rw [List.append_assoc, List.append_assoc, parseString_appendString]
  show (match parseString (skipWS (appendString v ++ rest)) with
    | some (v1, s3) => some ((toValidUTF8 k, v1), s3)
    | none => none) = _
  rw [skipWS_appendString, parseString_appendString]

theorem parseMembers_encoded : ∀ (fields : List (GoString × GoString)) (f : GoString × GoString)
    (fuel : Nat) (rest : GoString), fields.length < fuel →
    parseMembers fuel
      (List.intercalate [0x2C]
          ((f :: fields).map (fun f => appendString f.1 ++ [0x3A] ++ appendString f.2))
        ++ 0x7D :: rest)
      = some ((f :: fields).map (fun f => (toValidUTF8 f.1, toValidUTF8 f.2)), rest) := by
  intro fields
  induction fields with
  | nil =>
    intro f fuel rest hf
    obtain ⟨fuel, rfl⟩ : ∃ k, fuel = k + 1 := ⟨fuel - 1, by omega⟩
    simp only [List.map, List.intercalate, List.intersperse, List.flatten, List.append_nil]
    rw [parseMembers, parseMember_encoded]
    rfl
  | cons f' fs ih =>
    intro f fuel rest hf
    simp only [List.length_cons] at hf
    obtain ⟨fuel, rfl⟩ : ∃ k, fuel = k + 1 := ⟨fuel - 1, by omega⟩
    have hsplit : List.intercalate [0x2C]
          ((f :: f' :: fs).map (fun f => appendString f.1 ++ [0x3A] ++ appendString f.2))
        ++ 0x7D :: rest
        = appendString f.1 ++ [0x3A] ++ appendString f.2
          ++ (0x2C :: (List.intercalate [0x2C]
              ((f' :: fs).map (fun f => appendString f.1 ++ [0x3A] ++ appendString f.2))
            ++ 0x7D :: rest)) := by
      simp [List.intercalate, List.intersperse, List.flatten]
    rw [hsplit, parseMembers, parseMember_encoded]
    have hws : skipWS (List.intercalate [0x2C]
          ((f' :: fs).map (fun f => appendString f.1 ++ [0x3A] ++ appendString f.2))
        ++ 0x7D :: rest)
        = List.intercalate [0x2C]
          ((f' :: fs).map (fun f => appendString f.1 ++ [0x3A] ++ appendString f.2))
        ++ 0x7D :: rest := by
      cases fs <;> rfl
    show (parseMembers fuel (skipWS _)).map _ = _
    rw [hws, ih f' fuel rest (by omega)]
    rfl

theorem length_le_intercalate : ∀ (fields : List (GoString × GoString)) (f : GoString × GoString),
    fields.length
      ≤ (List.intercalate [0x2C]
          ((f :: fields).map (fun f => appendString f.1 ++ [0x3A] ++ appendString f.2))).length := by
  intro fields
  induction fields with
  | nil => intro f; simp
  | cons f' fs ih =>
    intro f
    have h := ih f'
    have hsplit : List.intercalate [0x2C]
          ((f :: f' :: fs).map (fun f => appendString f.1 ++ [0x3A] ++ appendString f.2))
        = appendString f.1 ++ [0x3A] ++ appendString f.2
          ++ (0x2C :: List.intercalate [0x2C]
              ((f' :: fs).map (fun f => appendString f.1 ++ [0x3A] ++ appendString f.2))) := by
      simp [List.intercalate, List.intersperse, List.flatten]
    rw [hsplit]
    simp only [List.length_append, List.length_cons]
    omega

theorem parseObject_encodeStruct (f : GoString × GoString) (fields : List (GoString × GoString))
    (trailing : GoString) (hws : skipWS trailing = []) :
    parseObject (encodeStruct (f :: fields) ++ trailing)
      = some ((f :: fields).map (fun f => (toValidUTF8 f.1, toValidUTF8 f.2))) := by
  obtain ⟨tl, htl⟩ : ∃ tl, List.intercalate [0x2C]
      ((f :: fields).map (fun f => appendString f.1 ++ [0x3A] ++ appendString f.2))
      ++ 0x7D :: trailing = 0x22 :: tl := by
    cases fields <;> exact ⟨_, rfl⟩
  have hlen : fields.length < (0x22 :: tl).length := by
    have h := length_le_intercalate fields f
    rw [← htl]
    simp only [List.length_append, List.length_cons]
    omega
  have hE : encodeStruct (f :: fields) ++ trailing = 0x7B :: 0x22 :: tl := by
    rw [← htl]
    simp [encodeStruct]
  have hM := parseMembers_encoded fields f (0x22 :: tl).length trailing hlen
  rw [htl] at hM
  rw [hE]
  simp only [List.length_cons] at hM
  simp [parseObject, skipWS, isWS, hM, hws]

theorem sprintf_platform (os arch : GoString) :
    Sprintf (str "%s/%s") [os, arch] = some (os ++ str "/" ++ arch) := by
  show some (os ++ (0x2F :: (arch ++ []))) = some (os ++ [0x2F] ++ arch)
  simp

theorem handleVersion_response (rt : Runtime) (r : Request) (g : Globals) :
    respond (handleVersion rt) r g =
      ({ status := 200,
         header := [(str "Content-Type", [str "application/json"])],
         body := encodeStruct
            [ (str "version", g.Version), (str "commit", g.Commit),
              (str "build_date", g.BuildDate), (str "go_version", rt.Version),
              (str "platform", rt.GOOS ++ str "/" ++ rt.GOARCH) ] ++ [0x0A] }, g) := by
  unfold respond handleVersion
  simp only [sprintf_platform, Option.getD_some]
  rfl

theorem versionInfo_parse (rt : Runtime) (g : Globals) (trailing : GoString)
    (hws : skipWS trailing = []) :
    parseObject (encodeStruct
        [ (str "version", g.Version), (str "commit", g.Commit),
          (str "build_date", g.BuildDate), (str "go_version", rt.Version),
          (str "platform", rt.GOOS ++ str "/" ++ rt.GOARCH) ] ++ trailing)
      = some [ (str "version", toValidUTF8 g.Version), (str "commit", toValidUTF8 g.Commit),
               (str "build_date", toValidUTF8 g.BuildDate),
               (str "go_version", toValidUTF8 rt.Version),
               (str "platform", toValidUTF8 (rt.GOOS ++ str "/" ++ rt.GOARCH)) ] := by
  rw [parseObject_encodeStruct _ _ trailing hws]
  have k1 : toValidUTF8 (str "version") = str "version" := by decide
  have k2 : toValidUTF8 (str "commit") = str "commit" := by decide
  have k3 : toValidUTF8 (str "build_date") = str "build_date" := by decide
  have k4 : toValidUTF8 (str "go_version") = str "go_version" := by decide
  have k5 : toValidUTF8 (str "platform") = str "platform" := by decide
  simp only [List.map, k1, k2, k3, k4, k5]

/-! ## The claims -/

/-- C1, counterexample. The path "/nonexistent" is none of "/", "/health",
"/readiness", "/version", and it is in canonical form; with the variables at
their defaults the route table of main sends `GET /nonexistent` to
handleRoot, and the response has status 200 and the greeting as its body, not
status 404. -/
theorem nonexistent_path_is_answered_by_handleRoot :
    str "/nonexistent" ∉ [str "/", str "/health", str "/readiness", str "/version"]
    ∧ cleanPath (str "/nonexistent") = str "/nonexistent"
    ∧ (main Environ.unset Runtime.linuxAmd64 Globals.default).map
        (fun srv => srv.mux.Handler ⟨str "GET", str "/nonexistent"⟩)
      = some (Route.handler handleRoot (str "/"))
    ∧ run Environ.unset Runtime.linuxAmd64 Globals.default ⟨str "GET", str "/nonexistent"⟩
      = some (Outcome.response
          { status := 200, header := [], body := str "Hello, World! (version: dev)\n" },
          Globals.default)
    ∧ (run Environ.unset Runtime.linuxAmd64 Globals.default ⟨str "GET", str "/nonexistent"⟩).map
        (fun a => a.1.status) ≠ some 404 := by
  refine ⟨by decide, by decide, rfl, rfl, by decide⟩

/-- C1, amended. For every request, of any method, whose path is in the
canonical form of the mux (it is its own cleanPath: it starts with a slash
and has no empty, "." or ".." element) and is none of "/health", "/readiness"
and "/version", the route table that main registers dispatches to handleRoot
under the pattern "/": the response has status 200, never 404, and the
variables are unchanged; its body is the greeting for every method but HEAD,
and for HEAD the server sends the status and no body. -/
theorem unregistered_path_is_answered_by_handleRoot (env : Environ) (rt : Runtime) (g : Globals)
    (r : Request) (hc : cleanPath r.Path = r.Path) (h1 : r.Path ≠ str "/health")
    (h2 : r.Path ≠ str "/readiness") (h3 : r.Path ≠ str "/version") :
    ∃ srv, main env rt g = some srv
      ∧ srv.mux.Handler r = Route.handler handleRoot (str "/")
      ∧ srv.serve r g = (Outcome.response (transmit r (greeting g.Version)), g)
      ∧ (r.Method ≠ str "HEAD" → srv.serve r g = (Outcome.response (greeting g.Version), g))
      ∧ (r.Method = str "HEAD" →
          srv.serve r g = (Outcome.response { status := 200, header := [], body := [] }, g))
      ∧ (srv.serve r g).1.status = 200 := by
  refine ⟨_, main_eq env rt g, routes_Handler_root rt r hc h1 h2 h3, ?_⟩
  have hs := serve_of_Handler
    { addr := str ":" ++
        (if Getenv env (str "PORT") = str "" then str "8080" else Getenv env (str "PORT")),
      logged := Sprintf (str "Starting server on %s (version: %s)")
        [str ":" ++
          (if Getenv env (str "PORT") = str "" then str "8080" else Getenv env (str "PORT")),
         g.Version],
      mux := routes rt } r g handleRoot (str "/") (canonical_ne_star hc)
    (routes_Handler_root rt r hc h1 h2 h3)
  have hg : respond handleRoot r g = (greeting g.Version, g) := rfl
  rw [hg] at hs
  refine ⟨hs, ?_, ?_, ?_⟩
  · intro hm
    rw [hs, transmit_of_not_head r _ hm]
  · intro hm
    rw [hs, transmit_of_head r _ hm]
    rfl
  · rw [hs]
    exact transmit_status r _

/-- C1, witness: the amended statement at `POST /api/v1/items` with `PORT`
unset and the variables at their defaults; the answer is the greeting. -/
theorem unregistered_path_witness :
    ∃ srv, main Environ.unset Runtime.linuxAmd64 Globals.default = some srv
      ∧ srv.mux.Handler ⟨str "POST", str "/api/v1/items"⟩ = Route.handler handleRoot (str "/")
      ∧ srv.serve ⟨str "POST", str "/api/v1/items"⟩ Globals.default
        = (Outcome.response (greeting Globals.default.Version), Globals.default)
      ∧ (srv.serve ⟨str "POST", str "/api/v1/items"⟩ Globals.default).1.status = 200 := by
  obtain ⟨srv, hmain, hroute, _, hbody, _, hstatus⟩ :=
    unregistered_path_is_answered_by_handleRoot Environ.unset Runtime.linuxAmd64 Globals.default
      ⟨str "POST", str "/api/v1/items"⟩ (by decide) (by decide) (by decide) (by decide)
  exact ⟨srv, hmain, hroute, hbody (by decide), hstatus⟩

/-- C2. For every value of Version and every request, handleRoot leaves a
response with status 200, no header of its own, and a body that is exactly
"Hello, World! (version: ", the bytes of Version, and ")\n"; the variables
are unchanged. -/
theorem handleRoot_writes_greeting (g : Globals) (r : Request) :
    respond handleRoot r g =
      ({ status := 200, header := [],
         body := str "Hello, World! (version: " ++ g.Version ++ str ")\n" }, g) := by
  rfl

/-- C5. For every request, handleHealth leaves a response with status 200 and
body exactly "OK\n", and the response is the same for any other request and
any other values of the variables. -/
theorem handleHealth_writes_OK (g g' : Globals) (r r' : Request) :
    respond handleHealth r g = ({ status := 200, header := [], body := str "OK\n" }, g)
    ∧ (respond handleHealth r g).1 = (respond handleHealth r' g').1 := by
  exact ⟨rfl, rfl⟩

/-- C6. For every request, handleReadiness leaves a response with status 200
and body exactly "Ready\n"; against the response of handleHealth the status
and the headers are the same and the body differs. -/
theorem handleReadiness_writes_Ready (g : Globals) (r : Request) :
    respond handleReadiness r g = ({ status := 200, header := [], body := str "Ready\n" }, g)
    ∧ (respond handleReadiness r g).1.status = (respond handleHealth r g).1.status
    ∧ (respond handleReadiness r g).1.header = (respond handleHealth r g).1.header
    ∧ (respond handleReadiness r g).1.body ≠ (respond handleHealth r g).1.body := by
  refine ⟨rfl, rfl, rfl, ?_⟩
  show str "Ready\n" ≠ str "OK\n"
  decide

/-- C7. The listen address main computes is ":" followed by the value of PORT
whenever that value is a valid port number, and ":8080" when PORT is unset or
is the empty string. -/
theorem listen_address (env : Environ) (rt : Runtime) (g : Globals) :
    ∃ srv, main env rt g = some srv
      ∧ (∀ port, env (str "PORT") = some port → isPortNumber port = true →
          srv.addr = str ":" ++ port)
      ∧ (env (str "PORT") = none → srv.addr = str ":8080")
      ∧ (env (str "PORT") = some (str "") → srv.addr = str ":8080") := by
  refine ⟨_, main_eq env rt g, ?_, ?_, ?_⟩
  · intro port hset hvalid
    have hne : port ≠ str "" := by
      intro h
      rw [h] at hvalid
      revert hvalid
      decide
    simp [Getenv, hset, hne]
  · intro hunset
    simp [Getenv, hunset]
    rfl
  · intro hempty
    simp [Getenv, hempty]
    rfl

/-- C7, witness: with PORT set to "3000" the address is ":3000". -/
theorem listen_address_witness :
    isPortNumber (str "3000") = true
    ∧ ∃ srv, main (Environ.withPort (str "3000")) Runtime.linuxAmd64 Globals.default = some srv
      ∧ srv.addr = str ":3000" := by
  refine ⟨by decide, ?_⟩
  obtain ⟨srv, hsrv, hport, _, _⟩ :=
    listen_address (Environ.withPort (str "3000")) Runtime.linuxAmd64 Globals.default
  exact ⟨srv, hsrv, hport (str "3000") (by decide) (by decide)⟩

/-- C8, counterexample. With the variables at their defaults, `GET /health`
is answered with status 200 and the body "OK\n", `HEAD /health` with status
200 and no body: two requests for the same registered path that differ only
in the method get different responses. -/
theorem head_response_has_no_body :
    run Environ.unset Runtime.linuxAmd64 Globals.default ⟨str "GET", str "/health"⟩
      = some (Outcome.response { status := 200, header := [], body := str "OK\n" },
          Globals.default)
    ∧ run Environ.unset Runtime.linuxAmd64 Globals.default ⟨str "HEAD", str "/health"⟩
      = some (Outcome.response { status := 200, header := [], body := [] }, Globals.default)
    ∧ run Environ.unset Runtime.linuxAmd64 Globals.default ⟨str "GET", str "/health"⟩
      ≠ run Environ.unset Runtime.linuxAmd64 Globals.default ⟨str "HEAD", str "/health"⟩ := by
  refine ⟨rfl, rfl, by decide⟩

/-- C8, amended. For every method, the route table that main registers sends
a request for "/" to handleRoot, for "/health" to handleHealth, for
"/readiness" to handleReadiness and for "/version" to handleVersion; what the
handler writes does not depend on the method, and the answer of the server is
that response as the server sends it. Two requests for the same one of these
paths that differ only in the method get answers with the same status and the
same headers, and the same answer altogether when neither or both of the
methods are HEAD; to a HEAD request the server sends no body. -/
theorem registered_paths_dispatch (env : Environ) (rt : Runtime) (g : Globals)
    (method method' : GoString) :
    ∃ srv, main env rt g = some srv
      ∧ ∀ ph ∈ ([ (str "/", handleRoot), (str "/health", handleHealth),
                  (str "/readiness", handleReadiness), (str "/version", handleVersion rt) ] :
                List (GoString × HandlerFunc)),
          srv.mux.Handler ⟨method, ph.1⟩ = Route.handler ph.2 ph.1
          ∧ respond ph.2 ⟨method, ph.1⟩ g = respond ph.2 ⟨method', ph.1⟩ g
          ∧ srv.serve ⟨method, ph.1⟩ g
              = (Outcome.response (transmit ⟨method, ph.1⟩ (respond ph.2 ⟨method, ph.1⟩ g).1), g)
          ∧ ((method = str "HEAD" ↔ method' = str "HEAD") →
              srv.serve ⟨method, ph.1⟩ g = srv.serve ⟨method', ph.1⟩ g)
          ∧ (method = str "HEAD" →
              srv.serve ⟨method, ph.1⟩ g
                = (Outcome.response { (respond ph.2 ⟨method, ph.1⟩ g).1 with body := [] }, g))
          ∧ ∃ resp resp', srv.serve ⟨method, ph.1⟩ g = (Outcome.response resp, g)
              ∧ srv.serve ⟨method', ph.1⟩ g = (Outcome.response resp', g)
              ∧ resp.status = resp'.status ∧ resp.header = resp'.header := by
  obtain ⟨r0, r1, r2, r3⟩ := routes_Handler_registered rt method
  obtain ⟨q0, q1, q2, q3⟩ := routes_Handler_registered rt method'
  refine ⟨_, main_eq env rt g, ?_⟩
  intro ph hph
  simp only [List.mem_cons, List.mem_singleton, List.not_mem_nil, or_false] at hph
  have key : ∀ (p : GoString) (h : HandlerFunc), p ≠ str "*" →
      (∀ m, (routes rt).Handler ⟨m, p⟩ = Route.handler h p) →
      (∀ m m', respond h ⟨m, p⟩ g = respond h ⟨m', p⟩ g) →
      (∀ m, (respond h ⟨m, p⟩ g).2 = g) →
      ∀ (srv : Server), srv.mux = routes rt →
      srv.mux.Handler ⟨method, p⟩ = Route.handler h p
      ∧ respond h ⟨method, p⟩ g = respond h ⟨method', p⟩ g
      ∧ srv.serve ⟨method, p⟩ g
          = (Outcome.response (transmit ⟨method, p⟩ (respond h ⟨method, p⟩ g).1), g)
      ∧ ((method = str "HEAD" ↔ method' = str "HEAD") →
          srv.serve ⟨method, p⟩ g = srv.serve ⟨method', p⟩ g)
      ∧ (method = str "HEAD" →
          srv.serve ⟨method, p⟩ g
            = (Outcome.response { (respond h ⟨method, p⟩ g).1 with body := [] }, g))
      ∧ ∃ resp resp', srv.serve ⟨method, p⟩ g = (Outcome.response resp, g)
          ∧ srv.serve ⟨method', p⟩ g = (Outcome.response resp', g)
          ∧ resp.status = resp'.status ∧ resp.header = resp'.header := by
    intro p h hp hroute hresp hglob srv hsrv
    have hH : ∀ m, srv.mux.Handler ⟨m, p⟩ = Route.handler h p := by
      intro m
      rw [hsrv]
      exact hroute m
    have hS : ∀ m, srv.serve ⟨m, p⟩ g
        = (Outcome.response (transmit ⟨m, p⟩ (respond h ⟨m, p⟩ g).1), g) := by
      intro m
      rw [serve_of_Handler srv ⟨m, p⟩ g h p hp (hH m), hglob m]
    refine ⟨hH method, hresp method method', hS method, ?_, ?_, ?_⟩
    · intro hm
      rw [hS method, hS method', hresp method method', transmit_congr method method' p _ hm]
    · intro hm
      rw [hS method, transmit_of_head _ _ hm]
    · refine ⟨_, _, hS method, hS method', ?_, ?_⟩
      · rw [transmit_status, transmit_status, hresp method method']
      · rw [transmit_header, transmit_header, hresp method method']
  rcases hph with rfl | rfl | rfl | rfl
  · exact key (str "/") handleRoot (by decide)
      (fun m => (routes_Handler_registered rt m).1) (fun _ _ => rfl) (fun _ => rfl) _ rfl
  · exact key (str "/health") handleHealth (by decide)
      (fun m => (routes_Handler_registered rt m).2.1) (fun _ _ => rfl) (fun _ => rfl) _ rfl
  · exact key (str "/readiness") handleReadiness (by decide)
      (fun m => (routes_Handler_registered rt m).2.2.1) (fun _ _ => rfl) (fun _ => rfl) _ rfl
  · exact key (str "/version") (handleVersion rt) (by decide)
      (fun m => (routes_Handler_registered rt m).2.2.2) (fun _ _ => rfl) (fun _ => rfl) _ rfl

/-- C8, witness: `GET /version` and `POST /version` get the same answer, with
`PORT` unset and the variables at their defaults. -/
theorem registered_paths_dispatch_witness :
    ∃ srv, main Environ.unset Runtime.linuxAmd64 Globals.default = some srv
      ∧ srv.mux.Handler ⟨str "GET", str "/version"⟩
          = Route.handler (handleVersion Runtime.linuxAmd64) (str "/version")
      ∧ srv.serve ⟨str "GET", str "/version"⟩ Globals.default
          = srv.serve ⟨str "POST", str "/version"⟩ Globals.default := by
  obtain ⟨srv, hmain, hall⟩ :=
    registered_paths_dispatch Environ.unset Runtime.linuxAmd64 Globals.default (str "GET")
      (str "POST")
  obtain ⟨hroute, _, _, hsame, _, _⟩ :=
    hall (str "/version", handleVersion Runtime.linuxAmd64) (by simp)
  exact ⟨srv, hmain, hroute, hsame (by decide)⟩

/-- C9. For every environment, runtime and value of the variables, and every
request: no sequence of requests changes the variables, each of the four
handlers gives a response that does not depend on the request, and handling
the same request twice in a row gives the same answer both times (status,
headers set by the handler, and body). -/
theorem repeated_request_same_response (env : Environ) (rt : Runtime) (g : Globals)
    (before : List Request) (r r' : Request) :
    ∃ srv, main env rt g = some srv
      ∧ (srv.serveAll before g).2 = g
      ∧ srv.serveAll [r, r] g = ([(srv.serve r g).1, (srv.serve r g).1], g)
      ∧ srv.serve r (srv.serveAll before g).2 = srv.serve r g
      ∧ respond handleRoot r g = respond handleRoot r' g
      ∧ respond handleHealth r g = respond handleHealth r' g
      ∧ respond handleReadiness r g = respond handleReadiness r' g
      ∧ respond (handleVersion rt) r g = respond (handleVersion rt) r' g := by
  refine ⟨_, main_eq env rt g, routes_serveAll_globals _ rt rfl before g, ?_, ?_,
    rfl, rfl, rfl, rfl⟩
  · simp only [Server.serveAll]
    rw [routes_serve_globals _ rt rfl r g, routes_serve_globals _ rt rfl r g]
  · rw [routes_serveAll_globals _ rt rfl before g]

set_option maxRecDepth 100000 in
/-- C3, counterexample. The one-byte string 0xFF is not valid UTF-8. With
Version set to it, handleVersion still answers with status 200, but the body
carries the escape \ufffd in its place, so the object the body deserializes
to has under "version" the three bytes of U+FFFD, not the constant
Version. -/
theorem invalid_utf8_version_is_replaced :
    ValidString [0xFF] = false
    ∧ (respond (handleVersion Runtime.linuxAmd64) ⟨str "GET", str "/version"⟩
        { Version := [0xFF], Commit := str "unknown", BuildDate := str "unknown" }).1.status = 200
    ∧ (respond (handleVersion Runtime.linuxAmd64) ⟨str "GET", str "/version"⟩
        { Version := [0xFF], Commit := str "unknown", BuildDate := str "unknown" }).1.body
      = str "\x7b\"version\":\"\\ufffd\",\"commit\":\"unknown\",\"build_date\":\"unknown\",\"go_version\":\"go1.21.0\",\"platform\":\"linux/amd64\"\x7d\n"
    ∧ parseObject (respond (handleVersion Runtime.linuxAmd64) ⟨str "GET", str "/version"⟩
        { Version := [0xFF], Commit := str "unknown", BuildDate := str "unknown" }).1.body
      = some [ (str "version", [0xEF, 0xBF, 0xBD]), (str "commit", str "unknown"),
               (str "build_date", str "unknown"), (str "go_version", str "go1.21.0"),
               (str "platform", str "linux/amd64") ]
    ∧ ([0xEF, 0xBF, 0xBD] : GoString) ≠ [0xFF] := by
  refine ⟨by decide, by rfl, by rfl, by rfl, by decide⟩

/-- C3, amended. For every request, and for all values of Version, Commit,
BuildDate, of the runtime version string and of the platform string
GOOS/GOARCH that are valid UTF-8, handleVersion leaves a response with status
200 and the header Content-Type: application/json whose body deserializes to
a JSON object with exactly the five keys version, commit, build_date,
go_version, platform, in this order, whose values are Version, Commit,
BuildDate, the runtime version string, and GOOS, a slash, GOARCH. -/
theorem handleVersion_response_deserializes (rt : Runtime) (g : Globals) (r : Request)
    (hV : ValidString g.Version = true) (hC : ValidString g.Commit = true)
    (hB : ValidString g.BuildDate = true) (hG : ValidString rt.Version = true)
    (hP : ValidString (rt.GOOS ++ str "/" ++ rt.GOARCH) = true) :
    (respond (handleVersion rt) r g).1.status = 200
    ∧ (respond (handleVersion rt) r g).1.header = [(str "Content-Type", [str "application/json"])]
    ∧ (respond (handleVersion rt) r g).1.header.Get (str "Content-Type") = str "application/json"
    ∧ parseObject (respond (handleVersion rt) r g).1.body
      = some [ (str "version", g.Version), (str "commit", g.Commit),
               (str "build_date", g.BuildDate), (str "go_version", rt.Version),
               (str "platform", rt.GOOS ++ str "/" ++ rt.GOARCH) ] := by
  rw [handleVersion_response]
  refine ⟨rfl, rfl, rfl, ?_⟩
  show parseObject (encodeStruct _ ++ [0x0A]) = _
  rw [versionInfo_parse rt g [0x0A] rfl, toValidUTF8_of_valid _ hV, toValidUTF8_of_valid _ hC,
    toValidUTF8_of_valid _ hB, toValidUTF8_of_valid _ hG, toValidUTF8_of_valid _ hP]

/-- C3, witness: the amended statement for `GET /version` with the variables
at their defaults on linux/amd64. -/
theorem handleVersion_deserializes_witness :
    (respond (handleVersion Runtime.linuxAmd64) ⟨str "GET", str "/version"⟩
        Globals.default).1.status = 200
    ∧ (respond (handleVersion Runtime.linuxAmd64) ⟨str "GET", str "/version"⟩
        Globals.default).1.header = [(str "Content-Type", [str "application/json"])]
    ∧ (respond (handleVersion Runtime.linuxAmd64) ⟨str "GET", str "/version"⟩
        Globals.default).1.header.Get (str "Content-Type") = str "application/json"
    ∧ parseObject (respond (handleVersion Runtime.linuxAmd64) ⟨str "GET", str "/version"⟩
        Globals.default).1.body
      = some [ (str "version", Globals.default.Version), (str "commit", Globals.default.Commit),
               (str "build_date", Globals.default.BuildDate),
               (str "go_version", Runtime.linuxAmd64.Version),
               (str "platform", Runtime.linuxAmd64.GOOS ++ str "/" ++ Runtime.linuxAmd64.GOARCH) ] :=
  handleVersion_response_deserializes Runtime.linuxAmd64 Globals.default
    ⟨str "GET", str "/version"⟩ (by decide) (by decide) (by decide) (by decide) (by decide)

/-- C4, counterexample. With the variables at their defaults on linux/amd64
with Go 1.21.0 the body of handleVersion is the object of the specification
followed by a newline, so it is not the object alone; and with a runtime
version string that holds a double quote the body holds the quote escaped, so
it is not the specification's text even with the newline added. -/
theorem default_version_body_differs :
    (respond (handleVersion Runtime.linuxAmd64) ⟨str "GET", str "/version"⟩
        Globals.default).1.body
      = specVersionBody (str "go1.21.0") (str "linux/amd64") ++ str "\n"
    ∧ (respond (handleVersion Runtime.linuxAmd64) ⟨str "GET", str "/version"⟩
        Globals.default).1.body
      ≠ specVersionBody (str "go1.21.0") (str "linux/amd64")
    ∧ (respond (handleVersion { Version := str "go\"1", GOOS := str "linux", GOARCH := str "amd64" })
        ⟨str "GET", str "/version"⟩ Globals.default).1.body
      = specVersionBody (str "go\\\"1") (str "linux/amd64") ++ str "\n"
    ∧ (respond (handleVersion { Version := str "go\"1", GOOS := str "linux", GOARCH := str "amd64" })
        ⟨str "GET", str "/version"⟩ Globals.default).1.body
      ≠ specVersionBody (str "go\"1") (str "linux/amd64") ++ str "\n" := by
  refine ⟨by rfl, by decide, by rfl, by decide⟩

/-- C4, amended. With the variables at their defaults, for every runtime
version string g and every platform string p = GOOS/GOARCH made of bytes that
JSON leaves unescaped (0x20 to 0x7F without the double quote, the backslash,
`<`, `>` and `&`), the body handleVersion writes is the object with the five
keys version, commit, build_date, go_version, platform in that order, with no
whitespace between tokens, followed by one newline. -/
theorem default_version_body (rt : Runtime) (r : Request)
    (hg : rt.Version.all htmlSafeSet = true) (hos : rt.GOOS.all htmlSafeSet = true)
    (harch : rt.GOARCH.all htmlSafeSet = true) :
    (respond (handleVersion rt) r Globals.default).1.body
      = specVersionBody rt.Version (rt.GOOS ++ str "/" ++ rt.GOARCH) ++ str "\n" := by
  rw [handleVersion_response]
  have hp : ∀ b ∈ rt.GOOS ++ str "/" ++ rt.GOARCH, htmlSafeSet b = true := by
    intro b hb
    rw [List.mem_append, List.mem_append] at hb
    rcases hb with (hb | hb) | hb
    · exact List.all_eq_true.mp hos b hb
    · have : b = 0x2F := by simpa [str, EncodeRune] using hb
      subst this
      decide
    · exact List.all_eq_true.mp harch b hb
  have e1 : appendString (str "version") = str "\"version\"" := by decide
  have e2 : appendString (str "commit") = str "\"commit\"" := by decide
  have e3 : appendString (str "build_date") = str "\"build_date\"" := by decide
  have e4 : appendString (str "go_version") = str "\"go_version\"" := by decide
  have e5 : appendString (str "platform") = str "\"platform\"" := by decide
  have e6 : appendString Globals.default.Version = str "\"dev\"" := by decide
  have e7 : appendString Globals.default.Commit = str "\"unknown\"" := by decide
  have e8 : appendString Globals.default.BuildDate = str "\"unknown\"" := by decide
  simp only [encodeStruct, List.map, specVersionBody, e1, e2, e3, e4, e5, e6, e7, e8,
    appendString_of_safe rt.Version (fun b hb => List.all_eq_true.mp hg b hb),
    appendString_of_safe _ hp]
  simp [str, EncodeRune, List.intercalate, List.intersperse, List.flatten]

/-- C4, witness: the amended statement on linux/amd64 with Go 1.21.0. -/
theorem default_version_body_witness :
    (respond (handleVersion Runtime.linuxAmd64) ⟨str "GET", str "/version"⟩
        Globals.default).1.body
      = specVersionBody Runtime.linuxAmd64.Version
          (Runtime.linuxAmd64.GOOS ++ str "/" ++ Runtime.linuxAmd64.GOARCH) ++ str "\n" :=
  default_version_body Runtime.linuxAmd64 ⟨str "GET", str "/version"⟩ (by decide) (by decide)
    (by decide)

set_option maxRecDepth 100000 in
/-- C10, counterexample. The two bytes 0xC3 0x28 are not valid UTF-8. With
Commit set to them the body of handleVersion is a JSON object and a newline,
but parsing it gives under "commit" the bytes of U+FFFD followed by 0x28, not
the string Commit. -/
theorem invalid_utf8_commit_is_not_parsed_back :
    ValidString [0xC3, 0x28] = false
    ∧ parseObject (respond (handleVersion Runtime.linuxAmd64) ⟨str "GET", str "/version"⟩
        { Version := str "v1.2.3", Commit := [0xC3, 0x28], BuildDate := str "2024-05-01" }).1.body
      = some [ (str "version", str "v1.2.3"), (str "commit", [0xEF, 0xBF, 0xBD, 0x28]),
               (str "build_date", str "2024-05-01"), (str "go_version", str "go1.21.0"),
               (str "platform", str "linux/amd64") ]
    ∧ ([0xEF, 0xBF, 0xBD, 0x28] : GoString) ≠ [0xC3, 0x28] := by
  refine ⟨by decide, by rfl, by decide⟩

/-- C10, amended. For every choice of the strings Version, Commit and
BuildDate that is valid UTF-8 (strings with double quotes, backslashes,
control characters, `<`, `>` and `&` included), and every runtime, the body
handleVersion writes is one JSON object, which ends with its closing brace,
followed by exactly one newline byte; parsing the object, or the whole body,
gives back exactly Version, Commit and BuildDate under the keys version,
commit and build_date. -/
theorem handleVersion_body_parses_back (rt : Runtime) (g : Globals) (r : Request)
    (hV : ValidString g.Version = true) (hC : ValidString g.Commit = true)
    (hB : ValidString g.BuildDate = true) :
    ∃ obj goVersion platform,
      (respond (handleVersion rt) r g).1.body = obj ++ [0x0A]
      ∧ obj.head? = some 0x7B
      ∧ obj.getLast? = some 0x7D
      ∧ parseObject obj
        = some [ (str "version", g.Version), (str "commit", g.Commit),
                 (str "build_date", g.BuildDate), (str "go_version", goVersion),
                 (str "platform", platform) ]
      ∧ parseObject (respond (handleVersion rt) r g).1.body
        = some [ (str "version", g.Version), (str "commit", g.Commit),
                 (str "build_date", g.BuildDate), (str "go_version", goVersion),
                 (str "platform", platform) ] := by
  rw [handleVersion_response]
  refine ⟨_, toValidUTF8 rt.Version, toValidUTF8 (rt.GOOS ++ str "/" ++ rt.GOARCH), rfl, ?_, ?_,
    ?_, ?_⟩
  · simp [encodeStruct]
  · exact List.getLast?_concat _
  · have h := versionInfo_parse rt g [] rfl
    rw [List.append_nil] at h
    rw [h, toValidUTF8_of_valid _ hV, toValidUTF8_of_valid _ hC, toValidUTF8_of_valid _ hB]
  · show parseObject (encodeStruct _ ++ [0x0A]) = _
    rw [versionInfo_parse rt g [0x0A] rfl, toValidUTF8_of_valid _ hV, toValidUTF8_of_valid _ hC,
      toValidUTF8_of_valid _ hB]

/-- C10, witness: the amended statement for a Version with a double quote, a
backslash, `<`, `>`, `&`, a line feed, the control character 0x01, a
two-byte character and U+2028, a Commit with a tab and a BuildDate with a
four-byte character. -/
theorem handleVersion_body_parses_back_witness :
    ∃ obj goVersion platform,
      (respond (handleVersion Runtime.linuxAmd64) ⟨str "GET", str "/version"⟩
        { Version := str "v\"1\\<>&\n\x01é\u2028", Commit := str "a\tb",
          BuildDate := str "2024 😀" }).1.body = obj ++ [0x0A]
      ∧ obj.head? = some 0x7B
      ∧ obj.getLast? = some 0x7D
      ∧ parseObject obj
        = some [ (str "version", str "v\"1\\<>&\n\x01é\u2028"), (str "commit", str "a\tb"),
                 (str "build_date", str "2024 😀"), (str "go_version", goVersion),
                 (str "platform", platform) ]
      ∧ parseObject (respond (handleVersion Runtime.linuxAmd64) ⟨str "GET", str "/version"⟩
        { Version := str "v\"1\\<>&\n\x01é\u2028", Commit := str "a\tb",
          BuildDate := str "2024 😀" }).1.body
        = some [ (str "version", str "v\"1\\<>&\n\x01é\u2028"), (str "commit", str "a\tb"),
                 (str "build_date", str "2024 😀"), (str "go_version", goVersion),
                 (str "platform", platform) ] :=
  handleVersion_body_parses_back Runtime.linuxAmd64
    { Version := str "v\"1\\<>&\n\x01é\u2028", Commit := str "a\tb", BuildDate := str "2024 😀" }
    ⟨str "GET", str "/version"⟩ (by decide) (by decide) (by decide)

end ReleaseFlow
